import Mathlib

/-!
Verification of the obsidian-ai-mindmeld core against its specification.

The plugin entry point (main.ts) is embedded directly from the source.
The five core components (TagHierarchyResolver, StructureBuilder,
MultiParentLinker, Serializer, MindmapCombiner) are declared and used by
main.ts but their implementation files are not part of the available
sources, so they are modelled from the specification (each such
definition carries a doc comment saying so).

Effectful plugin methods are embedded as pure functions from their
environment (settings, aggregation result, model response) to the list
of externally visible effects they perform, in order.
-/

namespace AIMindmap

/-! ## Embedding of main.ts (plugin entry point) -/

/-- String constant for the output format value selecting note creation only. -/
def strNote : String := "note"

/-- String constant for the output format value selecting the view only. -/
def strView : String := "view"

/-- String constant for the output format value selecting both outputs. -/
def strBoth : String := "both"

/-- One item of aggregated content, as consumed by main.ts: a file path and
the optionally present extracted tags (content.tags may be absent, hence
the optional access `content.tags?.forEach` in the source). -/
structure ProcessedContent where
  filePath : String
  tags : Option (List String)
deriving DecidableEq

/-- Externally visible effects performed by the plugin methods embedded
below, in the order the source performs them. Each notice constructor
stands for one distinct Notice message of main.ts. -/
inductive Effect where
  | noticeConfigureApiKey
  | noticeAnalyzing
  | aggregateContent
  | noticeNoContent
  | llmCall
  | noticeLLMFailed
  | buildStructure
  | createFile
  | noticeSaved
  | openView
  | noticeSuccess
  | noticeNeedTwoMindmaps
  | openCombinerModal
deriving DecidableEq

/-- The environment of one generateMindmapFromSelection invocation: the
relevant settings together with the outcomes of the two awaited external
calls (content aggregation and the model service). -/
structure GenEnv where
  apiKey : String
  outputFormat : String
  autoSave : Bool
  contents : List ProcessedContent
  llmSuccess : Bool

/-- Insert a string into an accumulator unless already present, keeping
first-insertion order; models one Set.add step of the JS Set used in
extractAllTags. -/
def addUnique (acc : List String) (t : String) : List String :=
  if t ∈ acc then acc else acc ++ [t]

/-- Embeds extractAllTags of main.ts: iterate the processed contents, add
every tag of each content (skipping contents whose tags are absent) into
one insertion-ordered set, and return its elements. -/
def extractAllTags (pcs : List ProcessedContent) : List String :=
  pcs.foldl (fun acc c => (c.tags.getD []).foldl addUnique acc) []

/-- Embeds displayMindmap / createMindmapNote / openVisualMindmapView of
main.ts: a note is created when the output format is note or both (with
a saved-notice when autoSave is on), and the visual view is opened when
the output format is view or both. -/
def displayMindmap (fmt : String) (autoSave : Bool) : List Effect :=
  (if fmt = strNote ∨ fmt = strBoth then
    Effect.createFile :: (if autoSave then [Effect.noticeSaved] else [])
   else []) ++
  (if fmt = strView ∨ fmt = strBoth then [Effect.openView] else [])

/-- Embeds generateMindmapFromSelection of main.ts as the list of
externally visible effects: an empty apiKey aborts with a notice; then
aggregation runs; zero processed items abort with a notice before the
model call; an unsuccessful model response aborts with a notice before
structure building; otherwise the structure is built and displayed/saved
and a success notice shown. -/
def generateMindmapFromSelection (env : GenEnv) : List Effect :=
  if env.apiKey = "" then [Effect.noticeConfigureApiKey]
  else
    Effect.noticeAnalyzing :: Effect.aggregateContent ::
    (if env.contents.length = 0 then [Effect.noticeNoContent]
     else Effect.llmCall ::
       (if env.llmSuccess = false then [Effect.noticeLLMFailed]
        else Effect.buildStructure ::
          (displayMindmap env.outputFormat env.autoSave ++ [Effect.noticeSuccess])))

/-- Embeds openMindmapCombiner of main.ts: with fewer than 2 saved
mindmaps only a notice is shown and the combiner modal is never opened;
otherwise the modal is opened. The saved mindmaps are modelled by their
identifiers. -/
def openMindmapCombiner (saved : List String) : List Effect :=
  if saved.length < 2 then [Effect.noticeNeedTwoMindmaps]
  else [Effect.openCombinerModal]

/-- The pipeline-stage rank of an effect: the four stages of
generateMindmapFromSelection in their documented order (display/save
effects share the final stage, ranked 3 and 4). Notices carry no rank. -/
def stageRank : Effect → Option Nat
  | .aggregateContent => some 0
  | .llmCall => some 1
  | .buildStructure => some 2
  | .createFile => some 3
  | .openView => some 4
  | _ => none

/-- The sequence of pipeline-stage ranks occurring in an effect trace. -/
def coreStages (tr : List Effect) : List Nat := tr.filterMap stageRank

/-! ## Data model (spec section 3)

The component sources (mindmapGenerator and friends) are not among the
available source files, so the data model and the five core components
are modelled from the specification. -/

/-- The empty string, used for the unrendered root title. -/
def emptyStr : String := ""

/-- Modelled from the spec: a MindmapNode of section 3 — id, title,
category (set only on depth-1 nodes), depth, tags, sourceRefs, the owned
ordered children (the primary tree) and the secondaryParents weak
back-references (node ids, annotation only). -/
inductive MindmapNode where
  | mk (id : Nat) (title : String) (category : Option String) (depth : Nat)
       (tags : List String) (sourceRefs : List String)
       (children : List MindmapNode) (secondaryParents : List Nat) : MindmapNode

/-- The id of a node. -/
def MindmapNode.id : MindmapNode → Nat
  | .mk i _ _ _ _ _ _ _ => i

/-- The title of a node. -/
def MindmapNode.title : MindmapNode → String
  | .mk _ t _ _ _ _ _ _ => t

/-- The category of a node (present only on depth-1 nodes). -/
def MindmapNode.category : MindmapNode → Option String
  | .mk _ _ c _ _ _ _ _ => c

/-- The depth of a node. -/
def MindmapNode.depth : MindmapNode → Nat
  | .mk _ _ _ d _ _ _ _ => d

/-- The tags of a node. -/
def MindmapNode.tags : MindmapNode → List String
  | .mk _ _ _ _ tg _ _ _ => tg

/-- The sourceRefs of a node. -/
def MindmapNode.sourceRefs : MindmapNode → List String
  | .mk _ _ _ _ _ s _ _ => s

/-- The owned children of a node, in rendering order. -/
def MindmapNode.children : MindmapNode → List MindmapNode
  | .mk _ _ _ _ _ _ cs _ => cs

/-- The secondary parent references of a node, as node ids. -/
def MindmapNode.secondaryParents : MindmapNode → List Nat
  | .mk _ _ _ _ _ _ _ sp => sp

/-- Modelled from the spec: a Mindmap of section 3 — root node, the
ordered category schema, the contributing source files and a creation
time. -/
structure Mindmap where
  root : MindmapNode
  categorySchema : List String
  sourceFiles : List String
  createdAt : Nat

/-! ## TagHierarchyResolver and category arbitration (spec 4.1, 4.2) -/

/-- The tag path separator. -/
def slashChar : Char := '/'

/-- Split a character list on a separator character; consecutive
separators yield empty segments (the semantics of String.splitOn,
written on the character level). -/
def splitChars (sep : Char) : List Char → List (List Char)
  | [] => [[]]
  | c :: cs =>
    let r := splitChars sep cs
    if c = sep then [] :: r
    else
      match r with
      | [] => [[c]]
      | seg :: rest => (c :: seg) :: rest

/-- Drop leading and trailing whitespace from a character list (the
semantics of String.trim on the character level). -/
def trimChars (cs : List Char) : List Char :=
  ((cs.dropWhile Char.isWhitespace).reverse.dropWhile Char.isWhitespace).reverse

/-- Lower-case every character of a string (the semantics of
String.toLower, used for the case-insensitive comparisons). -/
def lowerStr (s : String) : String := String.mk (s.data.map Char.toLower)

/-- Modelled from the spec: TagHierarchyResolver's path split — a tag is
split on the slash into its ordered segments; empty or whitespace-only
segments are silently dropped (so an empty or whitespace-only tag
yields no segments at all). -/
def tagSegments (tag : String) : List String :=
  ((splitChars slashChar tag.data).filter (fun cs => ¬ trimChars cs = [])).map String.mk

/-- Modelled from the spec: TagHierarchyResolver's category suggestion —
the suggested top-level category is the first schema entry matched
case-insensitively by the first path segment; a tag with no segments or
whose first segment matches no schema entry yields no suggestion. -/
def resolveTag (schema : List String) (tag : String) : Option String :=
  match tagSegments tag with
  | [] => none
  | seg :: _ => schema.find? (fun c => lowerStr c = lowerStr seg)

/-- The tag weighting mode of the settings (high, medium or low). -/
inductive Weighting where
  | high
  | medium
  | low
deriving DecidableEq

/-- Modelled from the spec: StructureBuilder's arbitration (section 4.2)
between the model-suggested category and the tag-derived suggestion for
one depth-1 node. When only one side suggests, it is used. On a
conflict: high lets the tag suggestion win, low lets the model
suggestion win, and medium breaks the tie by whichever side has more
corroborating source files (the spec leaves an exact corroboration tie
open; the tag side is used then, which no claim depends on). -/
def resolveCategory (w : Weighting) (modelSugg tagSugg : Option String)
    (modelCorrob tagCorrob : Nat) : Option String :=
  match modelSugg, tagSugg with
  | none, none => none
  | some m, none => some m
  | none, some t => some t
  | some m, some t =>
    if m = t then some m
    else
      match w with
      | .high => some t
      | .low => some m
      | .medium => if modelCorrob > tagCorrob then some m else some t

/-- String constant naming the model-suggested category of the spec's
weighting scenario. -/
def strGeneral : String := "General"

/-- String constant naming the tag-derived category of the spec's
weighting scenario. -/
def strDeeptech : String := "deeptech"

/-- The hierarchical tag of the spec's weighting scenario. -/
def tagDeeptechQuantum : String := "deeptech/quantum-ai"

/-! ## Tree traversals shared by the components -/

/-- All nodes of a subtree in depth-first preorder (the node itself
first, then its children's subtrees in order). -/
def allNodes : MindmapNode → List MindmapNode
  | .mk i t c d tg s cs sp =>
    .mk i t c d tg s cs sp :: (cs.attach.map (fun x => allNodes x.1)).flatten
decreasing_by
  have := List.sizeOf_lt_of_mem x.2
  simp only [MindmapNode.mk.sizeOf_spec]
  omega

/-- All node ids of a subtree in depth-first preorder. -/
def subtreeIds : MindmapNode → List Nat
  | .mk i _ _ _ _ _ cs _ =>
    i :: (cs.attach.map (fun x => subtreeIds x.1)).flatten
decreasing_by
  have := List.sizeOf_lt_of_mem x.2
  simp only [MindmapNode.mk.sizeOf_spec]
  omega

/-- The ids of the strict descendants of a node. -/
def properDescIds (n : MindmapNode) : List Nat :=
  (n.children.map subtreeIds).flatten

/-- All node titles of a subtree in depth-first preorder. -/
def nodeTitles : MindmapNode → List String
  | .mk _ t _ _ _ _ cs _ =>
    t :: (cs.attach.map (fun x => nodeTitles x.1)).flatten
decreasing_by
  have := List.sizeOf_lt_of_mem x.2
  simp only [MindmapNode.mk.sizeOf_spec]
  omega

/-- The titles of the rendered forest (everything below the root) in
depth-first preorder; the annotation resolution index. -/
def forestTitles (root : MindmapNode) : List String :=
  (root.children.map nodeTitles).flatten

/-- The title of the node carrying a given id, searching the whole tree
in preorder (first match wins). -/
def titleOfId (root : MindmapNode) (i : Nat) : Option String :=
  ((allNodes root).find? (fun n => n.id = i)).map MindmapNode.title

/-! ## Serializer (spec 4.4), modelled from the spec

A rendered document is a list of lines; a line holds its outline marker
style, its indentation, the node title and the trailing ALSO annotation
titles. The root (depth 0) is not rendered. -/

/-- The two outline marker styles: the heading-equivalent used at depth
1 and the list-item-equivalent used at every depth at least 2. -/
inductive Marker where
  | heading
  | bullet
deriving DecidableEq

/-- One line of the rendered outline: marker style, indentation width,
the title text, and the titles named by the trailing ALSO annotations in
order. -/
structure Line where
  marker : Marker
  indent : Nat
  title : String
  alsoRefs : List String
deriving DecidableEq

/-- Modelled from the spec: the marker style is chosen purely as a
function of depth — heading at depth 1, bullet at every other depth. -/
def markerFor (d : Nat) : Marker :=
  if d = 1 then .heading else .bullet

/-- Modelled from the spec: indentation strictly proportional to depth
(two columns per level below depth 1). -/
def indentFor (d : Nat) : Nat := 2 * (d - 1)

/-- Modelled from the spec: parsing recovers the depth of a line from
its marker and indentation — a heading line is depth 1, a bullet line's
depth is read off its indentation. -/
def lineDepth (l : Line) : Nat :=
  match l.marker with
  | .heading => 1
  | .bullet => l.indent / 2 + 1

/-- Modelled from the spec: render one node at a given depth — one line
whose marker and indentation are pure functions of the depth, whose
annotations name the secondary parents' titles (unresolvable ids are
dropped) — followed by the rendered children one level deeper. -/
def renderNode (root : MindmapNode) : Nat → MindmapNode → List Line
  | d, .mk _ t _ _ _ _ cs sp =>
    ⟨markerFor d, indentFor d, t, sp.filterMap (titleOfId root)⟩
      :: (cs.attach.map (fun x => renderNode root (d + 1) x.1)).flatten
decreasing_by
  have := List.sizeOf_lt_of_mem x.2
  simp only [MindmapNode.mk.sizeOf_spec]
  omega

/-- Modelled from the spec: the rendered outline document of a tree —
the root itself has no line; its children are rendered at depth 1. -/
def render (root : MindmapNode) : List Line :=
  (root.children.map (renderNode root 1)).flatten

/-- Intermediate parse tree: title, the annotation titles read off the
line, and the children; ids and depths are assigned afterwards. -/
inductive PNode where
  | mk (title : String) (alsoRefs : List String) (children : List PNode) : PNode

/-- The title of a parsed node. -/
def PNode.title : PNode → String
  | .mk t _ _ => t

/-- The annotation titles of a parsed node. -/
def PNode.alsoRefs : PNode → List String
  | .mk _ a _ => a

/-- The children of a parsed node. -/
def PNode.children : PNode → List PNode
  | .mk _ _ cs => cs

/-- The titles of a parsed subtree in depth-first preorder. -/
def pTitles : PNode → List String
  | .mk t _ cs => t :: (cs.attach.map (fun x => pTitles x.1)).flatten
decreasing_by
  have := List.sizeOf_lt_of_mem x.2
  simp only [PNode.mk.sizeOf_spec]
  omega

/-- The titles of a parsed forest in depth-first preorder. -/
def pTitlesF (ps : List PNode) : List String := (ps.map pTitles).flatten

/-- Modelled from the spec: structural parsing — consume the maximal run
of lines forming a forest at the given depth, descending one level on
each line and stopping at the first line of a smaller depth; returns the
forest and the unconsumed rest. The fuel only bounds recursion and is
chosen large enough by the caller. -/
def parseForest : Nat → Nat → List Line → List PNode × List Line
  | 0, _, ls => ([], ls)
  | _ + 1, _, [] => ([], [])
  | fuel + 1, d, l :: ls =>
    if lineDepth l = d then
      let pc := parseForest fuel (d + 1) ls
      let ps := parseForest fuel d pc.2
      (PNode.mk l.title l.alsoRefs pc.1 :: ps.1, ps.2)
    else ([], l :: ls)

mutual

/-- Assign preorder ids and depths to a parsed node and resolve its
annotation titles against the preorder title index (the node at preorder
position j carries id j + 1; first title match wins, unresolvable
annotations are dropped). Returns the built node and the next free id. -/
def buildNode (index : List String) : Nat → Nat → PNode → MindmapNode × Nat
  | k, d, .mk t refs cs =>
    let r := buildForest index (k + 1) (d + 1) cs
    (.mk k t none d [] [] r.1
       (refs.filterMap (fun s => (index.findIdx? (fun u => u = s)).map (· + 1))), r.2)

/-- Assign preorder ids and depths to a parsed forest, threading the
next free id left to right. -/
def buildForest (index : List String) : Nat → Nat → List PNode → List MindmapNode × Nat
  | k, _, [] => ([], k)
  | k, d, p :: ps =>
    let r1 := buildNode index k d p
    let r2 := buildForest index r1.2 d ps
    (r1.1 :: r2.1, r2.2)

end

/-- Modelled from the spec: parse a rendered outline document — recover
the forest structurally, fail (ParseError) when unconsumed lines remain,
then rebuild the tree under a fresh root with preorder ids and
title-resolved secondary parents. -/
def parse (lines : List Line) : Option MindmapNode :=
  let pr := parseForest (2 * lines.length + 1) 1 lines
  if pr.2 = [] then
    some (.mk 0 emptyStr none 0 [] [] (buildForest (pTitlesF pr.1) 1 1 pr.1).1 [])
  else none

/-- The shape of a node as the parser would see it: its title, the
rendered annotation titles of its secondary parents, and the shapes of
its children. -/
def toP (root : MindmapNode) : MindmapNode → PNode
  | .mk _ t _ _ _ _ cs sp =>
    .mk t (sp.filterMap (titleOfId root)) (cs.attach.map (fun x => toP root x.1))
decreasing_by
  have := List.sizeOf_lt_of_mem x.2
  simp only [MindmapNode.mk.sizeOf_spec]
  omega

mutual

/-- Check that a subtree's ids and depths are the preorder assignment
starting at the given id and depth; returns the next free id on
success. -/
def checkShape : Nat → Nat → MindmapNode → Option Nat
  | k, d, .mk i _ _ dep _ _ cs _ =>
    if i = k ∧ dep = d then checkShapeF (k + 1) (d + 1) cs else none

/-- Check a forest of subtrees against consecutive preorder ids at one
depth. -/
def checkShapeF : Nat → Nat → List MindmapNode → Option Nat
  | k, _, [] => some k
  | k, d, n :: ns =>
    match checkShape k d n with
    | none => none
    | some k2 => checkShapeF k2 d ns

end

/-- Every secondary parent entry of one node points to an existing
non-root node whose title's first preorder occurrence is that node
itself (so title-based annotation resolution recovers exactly it). -/
def spOk (root : MindmapNode) (n : MindmapNode) : Bool :=
  n.secondaryParents.all (fun e =>
    match (allNodes root).find? (fun m => m.id = e) with
    | none => false
    | some m =>
      decide (1 ≤ e) &&
      decide ((forestTitles root).findIdx? (fun u => u = m.title) = some (e - 1)))

/-- Every node's secondary parents are title-resolvable (spOk). -/
def spResolvable (root : MindmapNode) : Bool :=
  (allNodes root).all (spOk root)

/-- Serializer-side well-formedness of a built tree: the root is the
unrendered depth-0 node (id 0, empty title, no secondary parents), ids
and depths are the preorder assignment, and all secondary parents are
title-resolvable. These are the invariants StructureBuilder (which
creates nodes in depth-first order) and MultiParentLinker guarantee. -/
def wellFormedSer (root : MindmapNode) : Bool :=
  decide (root.id = 0) && decide (root.title = emptyStr) &&
  decide (root.depth = 0) && decide (root.secondaryParents = []) &&
  (checkShape 0 0 root).isSome && spResolvable root

/-- Structural equality of trees: same ids, titles, depths, same
children pointwise in the same order, and the same secondaryParents up
to ordering (set equality); the non-structural annotations (category,
tags, sourceRefs) are not rendered by the serializer and are not
compared. -/
def structEqB : MindmapNode → MindmapNode → Bool
  | .mk i1 t1 _ d1 _ _ c1 sp1, .mk i2 t2 _ d2 _ _ c2 sp2 =>
    decide (i1 = i2) && decide (t1 = t2) && decide (d1 = d2) &&
    sp1.all (fun x => sp2.contains x) && sp2.all (fun x => sp1.contains x) &&
    decide (c1.length = c2.length) &&
    (c1.zip c2).attach.all (fun p => structEqB p.1.1 p.1.2)
termination_by a _b => sizeOf a
decreasing_by
  obtain ⟨⟨a, _b⟩, hab⟩ := p
  have hm := List.of_mem_zip hab
  have := List.sizeOf_lt_of_mem hm.1
  simp only [MindmapNode.mk.sizeOf_spec]
  omega

/-! ## MultiParentLinker (spec 4.3), modelled from the spec -/

/-- Two nodes share at least one tag, compared case-insensitively. -/
def sharesTag (a b : MindmapNode) : Bool :=
  a.tags.any (fun ta => b.tags.any (fun tb => lowerStr ta = lowerStr tb))

/-- The ordered pairs of a list in which the first component occurs
strictly before the second (discovery order). -/
def orderedPairs : List MindmapNode → List (MindmapNode × MindmapNode)
  | [] => []
  | n :: rest => rest.map (fun m => (n, m)) ++ orderedPairs rest

/-- A candidate's two ids stand in the ancestor/descendant relation of
the primary tree (or are equal, or coincide on a shared id): some node
carries the one id while the other id lies in its subtree. Such a
candidate link would equal or mask a tree edge and must be skipped. -/
def inAncestry (root : MindmapNode) (a b : Nat) : Bool :=
  (allNodes root).any (fun m =>
    (decide (m.id = a) && (subtreeIds m).contains b) ||
    (decide (m.id = b) && (subtreeIds m).contains a))

/-- Modelled from the spec: the accepted candidate links of
MultiParentLinker — every ordered pair of distinct nodes, in
first-discovered (preorder) direction, that shares a tag
case-insensitively or whose titles overlap per the supplied lexical
overlap measure (the spec leaves the exact measure open, so it is a
parameter), and that passes the ancestor/descendant exclusion check;
violating candidates are skipped, not errored. The second id of an
accepted pair is recorded on the first node's secondary set. -/
def candidateLinks (overlap : String → String → Bool)
    (root : MindmapNode) : List (Nat × Nat) :=
  ((orderedPairs (allNodes root)).filter (fun p =>
      (sharesTag p.1 p.2 || overlap p.1.title p.2.title) &&
      !inAncestry root p.1.id p.2.id)).map
    (fun p => (p.1.id, p.2.id))

/-- The new secondary parent entries the linker adds to the node with a
given id. -/
def newLinks (overlap : String → String → Bool) (root : MindmapNode)
    (x : Nat) : List Nat :=
  ((candidateLinks overlap root).filter (fun p => p.1 = x)).map (fun p => p.2)

/-- Append extra secondary parent entries, chosen per id, to every node
of a tree; the tree structure and every other field are untouched. -/
def withLinks (f : Nat → List Nat) : MindmapNode → MindmapNode
  | .mk i t c d tg s cs sp =>
    .mk i t c d tg s (cs.attach.map (fun x => withLinks f x.1)) (sp ++ f i)
decreasing_by
  have := List.sizeOf_lt_of_mem x.2
  simp only [MindmapNode.mk.sizeOf_spec]
  omega

/-- Modelled from the spec: MultiParentLinker — when the multi-parent
flag is disabled the stage is a no-op pass-through; otherwise the
accepted candidate links are added to the discovering node's
secondaryParents. -/
def multiParentLinker (enabled : Bool) (overlap : String → String → Bool)
    (root : MindmapNode) : MindmapNode :=
  if enabled then withLinks (newLinks overlap root) root else root

/-! ## MindmapCombiner (spec 4.5), modelled from the spec -/

/-- The synthetic fallback category name. -/
def strUncategorized : String := "Uncategorized"

/-- Modelled from the spec: the unified category schema — the union of
all input schemas in first-seen order. -/
def unionSchemas (ms : List Mindmap) : List String :=
  ms.foldl (fun acc m => m.categorySchema.foldl addUnique acc) []

/-- The depth-1 nodes of a mindmap. -/
def depth1 (m : Mindmap) : List MindmapNode := m.root.children

/-- A depth-1 node is an orphan when it carries no category name or a
category name absent from the unified schema. -/
def isOrphan (unified : List String) (n : MindmapNode) : Bool :=
  match n.category with
  | none => true
  | some c => !(unified.contains c)

/-- Modelled from the spec: the category under which a depth-1 node's
subtree is grafted — its own category name verbatim when that name is in
the unified schema, and the synthetic Uncategorized fallback otherwise;
category identity from the source tree is authoritative and never
reassigned. -/
def targetCat (unified : List String) (n : MindmapNode) : String :=
  match n.category with
  | none => strUncategorized
  | some c => if unified.contains c then c else strUncategorized

/-- The subtrees grafted under the unified node of one schema category:
the children, in input order and with unchanged shape, of every input
depth-1 node declaring exactly that category. -/
def slotChildren (ms : List Mindmap) (unified : List String)
    (c : String) : List MindmapNode :=
  ((ms.map (fun m => (depth1 m).filter
      (fun n => !isOrphan unified n && decide (n.category = some c)))).flatten.map
    MindmapNode.children).flatten

/-- The subtrees grafted under the synthetic Uncategorized node: the
children of every orphan depth-1 node. -/
def orphanChildren (ms : List Mindmap) (unified : List String) : List MindmapNode :=
  ((ms.map (fun m => (depth1 m).filter (isOrphan unified))).flatten.map
    MindmapNode.children).flatten

/-- Some input has an orphan depth-1 node, so the Uncategorized fallback
is needed. -/
def orphanExists (ms : List Mindmap) (unified : List String) : Bool :=
  ms.any (fun m => (depth1 m).any (isOrphan unified))

/-- A string lower-cased for the near-duplicate title comparison. -/
def normTitle (s : String) : String := lowerStr s

mutual

/-- Modelled from the spec: deduplicate near-identical sibling nodes by
normalized title equality, merging duplicates recursively (the spec
leaves the tag-overlap threshold open as a tunable, modelled here as
title equality only). The fuel only bounds the recursion and is chosen
large enough by the caller. -/
def dedupFuel : Nat → List MindmapNode → List MindmapNode
  | 0, l => l
  | fuel + 1, l => dedupGo fuel [] l
termination_by fuel _l => (fuel, 0, 0)

/-- Fold the siblings left to right into an accumulator, merging each
into its first normalized-title match if one exists. -/
def dedupGo : Nat → List MindmapNode → List MindmapNode → List MindmapNode
  | _, acc, [] => acc
  | fuel, acc, n :: rest => dedupGo fuel (insertMerge fuel acc n) rest
termination_by fuel _acc l => (fuel, 3, l.length)

/-- Insert one node into the accumulated siblings: merge it into the
first accumulated node with the same normalized title, else append. -/
def insertMerge : Nat → List MindmapNode → MindmapNode → List MindmapNode
  | _, [], n => [n]
  | fuel, m :: rest, n =>
    if normTitle m.title = normTitle n.title then mergeNodes fuel m n :: rest
    else m :: insertMerge fuel rest n
termination_by fuel acc _n => (fuel, 2, acc.length)

/-- Merge two duplicate nodes into one: the first node's identity, the
union of tags and sourceRefs, and the recursive merge of the children
(the same dedup rule one level down). -/
def mergeNodes : Nat → MindmapNode → MindmapNode → MindmapNode
  | fuel, .mk i t c d tg s cs sp, .mk _ _ _ _ tg2 s2 cs2 sp2 =>
    .mk i t c d (tg2.foldl addUnique tg) (s2.foldl addUnique s)
      (dedupFuel fuel (cs ++ cs2)) (sp ++ sp2)
termination_by fuel _a _b => (fuel, 1, 0)

end

/-- A computable node count of a subtree, used as recursion fuel. -/
def nodeSize : MindmapNode → Nat
  | .mk _ _ _ _ _ _ cs _ =>
    1 + (cs.attach.map (fun x => nodeSize x.1)).foldl (· + ·) 0
decreasing_by
  have := List.sizeOf_lt_of_mem x.2
  simp only [MindmapNode.mk.sizeOf_spec]
  omega

/-- The total node count of a forest, used as recursion fuel. -/
def forestSize (l : List MindmapNode) : Nat :=
  (l.map nodeSize).foldl (· + ·) 0

/-- A synthesized unified depth-1 category node owning the deduplicated
grafted subtrees (the id is provisional; the combined tree is
renumbered in preorder afterwards). -/
def mkCatNode (c : String) (cs : List MindmapNode) : MindmapNode :=
  .mk 0 c (some c) 1 [] [] (dedupFuel (forestSize cs) cs) []

/-- Modelled from the spec: the combined depth-1 forest — one node per
unified schema category in schema order, each owning the deduplicated
union of the matching grafted subtrees, followed by the synthetic
Uncategorized node exactly when some orphan exists. -/
def combinedForest (ms : List Mindmap) : List MindmapNode :=
  let unified := unionSchemas ms
  unified.map (fun c => mkCatNode c (slotChildren ms unified c)) ++
    (if orphanExists ms unified then
      [mkCatNode strUncategorized (orphanChildren ms unified)]
     else [])

/-- Drop every secondaryParents entry in a subtree (the input trees' ids
are not stable across the merge, so cross-links are rediscovered by the
re-run of MultiParentLinker on the combined tree). -/
def clearSp : MindmapNode → MindmapNode
  | .mk i t c d tg s cs _ =>
    .mk i t c d tg s (cs.attach.map (fun x => clearSp x.1)) []
decreasing_by
  have := List.sizeOf_lt_of_mem x.2
  simp only [MindmapNode.mk.sizeOf_spec]
  omega

mutual

/-- Renumber a subtree with preorder ids and correct depths, threading
the next free id. -/
def reindexNode : Nat → Nat → MindmapNode → MindmapNode × Nat
  | k, d, .mk _ t c _ tg s cs sp =>
    let r := reindexForest (k + 1) (d + 1) cs
    (.mk k t c d tg s r.1 sp, r.2)

/-- Renumber a forest of subtrees left to right. -/
def reindexForest : Nat → Nat → List MindmapNode → List MindmapNode × Nat
  | k, _, [] => ([], k)
  | k, d, n :: ns =>
    let r1 := reindexNode k d n
    let r2 := reindexForest r1.2 d ns
    (r1.1 :: r2.1, r2.2)

end

/-- The error taxonomy entry of the combiner: an input tree carries an
empty or absent category schema, so its subtrees cannot be placed. -/
inductive CombineError where
  | missingSchema
deriving DecidableEq

/-- Modelled from the spec: MindmapCombiner — fail with CombineError
when any input tree's category schema is empty or absent; otherwise
build the unified root over the combined forest, renumber it in
preorder, re-run MultiParentLinker across the merged tree, and return
it with the unified schema (extended by the synthetic category exactly
when used) and the union of the input source files. -/
def combine (overlap : String → String → Bool)
    (ms : List Mindmap) : Except CombineError Mindmap :=
  if ms.any (fun m => m.categorySchema.isEmpty) then .error .missingSchema
  else
    let unified := unionSchemas ms
    let root0 : MindmapNode := .mk 0 emptyStr none 0 [] [] (combinedForest ms) []
    let root1 := (reindexNode 0 0 (clearSp root0)).1
    .ok
      { root := multiParentLinker true overlap root1
        categorySchema :=
          unified ++ (if orphanExists ms unified then [strUncategorized] else [])
        sourceFiles := (ms.map Mindmap.sourceFiles).flatten
        createdAt := 0 }

/-! ## Concrete inputs used by the witnesses -/

/-- A non-empty api key for witness environments. -/
def strKey : String := "sk-test"

/-- A sample source file path. -/
def strFile : String := "notes/a.md"

/-- The Technological category of the spec's combine scenario. -/
def strTech : String := "Technological"

/-- The Economic category of the spec's combine scenario. -/
def strEcon : String := "Economic"

/-- The AI Research leaf of the spec's combine scenario. -/
def strAI : String := "AI Research"

/-- The Market Shift leaf of the spec's combine scenario. -/
def strMarket : String := "Market Shift"

/-- A witness environment whose api key is empty. -/
def envKeyless : GenEnv :=
  { apiKey := emptyStr, outputFormat := strBoth, autoSave := true
    contents := [], llmSuccess := true }

/-- A witness environment with a key but zero processed contents. -/
def envNoContent : GenEnv :=
  { apiKey := strKey, outputFormat := strBoth, autoSave := true
    contents := [], llmSuccess := true }

/-- A sample processed content carrying one tag. -/
def pcSample : ProcessedContent := ⟨strFile, some [strDeeptech, strDeeptech]⟩

/-- A witness tree with two depth-1 category nodes. -/
def twoCatTree : MindmapNode :=
  .mk 0 emptyStr none 0 [] []
    [.mk 1 strTech (some strTech) 1 [] [] [] [],
     .mk 2 strEcon (some strEcon) 1 [] [] [] []] []

/-- A trivial lexical-overlap measure for the witnesses: no title pair
overlaps, so only shared tags create candidate links. -/
def noOverlap : String → String → Bool := fun _ _ => false

/-- A serializer witness tree: preorder ids and depths, distinct titles,
and one secondary parent crossing from the first branch into the
second. -/
def wfTree : MindmapNode :=
  .mk 0 emptyStr none 0 [] []
    [.mk 1 strTech (some strTech) 1 [] []
       [.mk 2 strAI none 2 [] [] [] [3]] [],
     .mk 3 strMarket (some strEcon) 1 [] [] [] []] []

/-- A linker witness tree: two depth-1 branches sharing one tag, empty
secondary parents everywhere. -/
def linkTree : MindmapNode :=
  .mk 0 emptyStr none 0 [] []
    [.mk 1 strTech (some strTech) 1 [strDeeptech] [] [] [],
     .mk 2 strEcon (some strEcon) 1 [strDeeptech] [] [] []] []

/-- Input tree A of the spec's combine scenario: Technological owning
the AI Research leaf. -/
def mapA : Mindmap :=
  { root := .mk 0 emptyStr none 0 [] []
      [.mk 1 strTech (some strTech) 1 [] []
        [.mk 2 strAI none 2 [] [] [] []] []] []
    categorySchema := [strTech, strEcon]
    sourceFiles := [strFile]
    createdAt := 0 }

/-- Input tree B of the spec's combine scenario: Economic owning the
Market Shift leaf. -/
def mapB : Mindmap :=
  { root := .mk 0 emptyStr none 0 [] []
      [.mk 1 strEcon (some strEcon) 1 [] []
        [.mk 2 strMarket none 2 [] [] [] []] []] []
    categorySchema := [strTech, strEcon]
    sourceFiles := [strFile]
    createdAt := 0 }

/-- A combiner input whose category schema is empty. -/
def mapNoSchema : Mindmap :=
  { root := .mk 0 emptyStr none 0 [] [] [] []
    categorySchema := []
    sourceFiles := []
    createdAt := 0 }

/-! # Theorems -/

/-! ## Library lemmas about the insertion-ordered set fold -/

/-- Membership after one addUnique step. -/
theorem mem_addUnique (acc : List String) (a x : String) :
    x ∈ addUnique acc a ↔ x ∈ acc ∨ x = a := by
  unfold addUnique
  by_cases h : a ∈ acc
  · rw [if_pos h]
    constructor
    · exact Or.inl
    · rintro (hx | rfl)
      · exact hx
      · exact h
  · rw [if_neg h]
    simp

/-- One addUnique step keeps the accumulator duplicate-free. -/
theorem nodup_addUnique (acc : List String) (a : String) (h : acc.Nodup) :
    (addUnique acc a).Nodup := by
  unfold addUnique
  by_cases ha : a ∈ acc
  · rwa [if_pos ha]
  · rw [if_neg ha]
    simp [List.nodup_append, h, ha]

/-- Membership after folding addUnique over a list. -/
theorem mem_foldl_addUnique (l : List String) :
    ∀ acc x, x ∈ l.foldl addUnique acc ↔ x ∈ acc ∨ x ∈ l := by
  induction l with
  | nil => intro acc x; simp
  | cons a l ih =>
    intro acc x
    rw [List.foldl_cons, ih, mem_addUnique]
    simp [or_assoc, List.mem_cons]

/-- Folding addUnique keeps the accumulator duplicate-free. -/
theorem nodup_foldl_addUnique (l : List String) :
    ∀ acc, acc.Nodup → (l.foldl addUnique acc).Nodup := by
  induction l with
  | nil => intro acc h; simpa
  | cons a l ih => intro acc h; exact ih _ (nodup_addUnique _ _ h)

/-- Membership in the optional-tags default. -/
theorem mem_getD_nil (o : Option (List String)) (x : String) :
    x ∈ o.getD [] ↔ ∃ ts, o = some ts ∧ x ∈ ts := by
  cases o <;> simp

/-- The extractAllTags fold keeps the accumulator duplicate-free. -/
theorem nodup_extract_aux (pcs : List ProcessedContent) :
    ∀ acc : List String, acc.Nodup →
      (pcs.foldl (fun acc c => (c.tags.getD []).foldl addUnique acc) acc).Nodup := by
  induction pcs with
  | nil => intro acc h; simpa
  | cons c pcs ih => intro acc h; exact ih _ (nodup_foldl_addUnique _ _ h)

/-- Membership across the extractAllTags fold, generalized over the
accumulator. -/
theorem mem_extract_aux (pcs : List ProcessedContent) :
    ∀ acc x,
      x ∈ pcs.foldl (fun acc c => (c.tags.getD []).foldl addUnique acc) acc ↔
        x ∈ acc ∨ ∃ c ∈ pcs, x ∈ c.tags.getD [] := by
  induction pcs with
  | nil => intro acc x; simp
  | cons c pcs ih =>
    intro acc x
    rw [List.foldl_cons, ih, mem_foldl_addUnique]
    simp [or_assoc, List.mem_cons]

/-! ## Claim theorems for the main.ts embeddings -/

/-- Claim C8: extractAllTags returns a duplicate-free list, and a string
occurs in it exactly when it occurs among the tags of at least one
processed content (contents with absent tags contribute nothing). -/
theorem claim8_extractAllTags (pcs : List ProcessedContent) :
    (extractAllTags pcs).Nodup ∧
    ∀ t, t ∈ extractAllTags pcs ↔ ∃ c ∈ pcs, ∃ ts, c.tags = some ts ∧ t ∈ ts := by
  constructor
  · exact nodup_extract_aux pcs [] (by simp)
  · intro t
    unfold extractAllTags
    rw [mem_extract_aux]
    simp only [List.mem_nil_iff, false_or]
    constructor
    · rintro ⟨c, hc, hx⟩
      exact ⟨c, hc, (mem_getD_nil _ _).mp hx⟩
    · rintro ⟨c, hc, ts, hts, ht⟩
      exact ⟨c, hc, (mem_getD_nil _ _).mpr ⟨ts, hts, ht⟩⟩

/-- Witness for C8: a concrete tag listed twice by one content occurs in
the extraction result. -/
theorem claim8_extractAllTags_witness :
    strDeeptech ∈ extractAllTags [pcSample] :=
  ((claim8_extractAllTags [pcSample]).2 strDeeptech).mpr
    ⟨pcSample, by simp, [strDeeptech, strDeeptech], rfl, by simp⟩

/-- Claim C9: with an empty configured apiKey,
generateMindmapFromSelection only shows the configure notice — it does
not aggregate content, call the model, build a structure, or create a
file or view. -/
theorem claim9_apiKey_gate (env : GenEnv) (h : env.apiKey = "") :
    generateMindmapFromSelection env = [Effect.noticeConfigureApiKey] ∧
    Effect.aggregateContent ∉ generateMindmapFromSelection env ∧
    Effect.llmCall ∉ generateMindmapFromSelection env ∧
    Effect.buildStructure ∉ generateMindmapFromSelection env ∧
    Effect.createFile ∉ generateMindmapFromSelection env ∧
    Effect.openView ∉ generateMindmapFromSelection env := by
  have hg : generateMindmapFromSelection env = [Effect.noticeConfigureApiKey] := by
    unfold generateMindmapFromSelection
    rw [if_pos h]
  refine ⟨hg, ?_, ?_, ?_, ?_, ?_⟩ <;> rw [hg] <;> simp

/-- Witness for C9 at a concrete keyless environment. -/
theorem claim9_apiKey_gate_witness :
    generateMindmapFromSelection envKeyless = [Effect.noticeConfigureApiKey] ∧
    Effect.aggregateContent ∉ generateMindmapFromSelection envKeyless ∧
    Effect.llmCall ∉ generateMindmapFromSelection envKeyless ∧
    Effect.buildStructure ∉ generateMindmapFromSelection envKeyless ∧
    Effect.createFile ∉ generateMindmapFromSelection envKeyless ∧
    Effect.openView ∉ generateMindmapFromSelection envKeyless :=
  claim9_apiKey_gate envKeyless rfl

/-- Claim C10: openMindmapCombiner only shows a notice and never opens
the combiner modal when fewer than 2 saved mindmaps exist, and opens the
modal exactly when at least 2 exist. -/
theorem claim10_combiner_gate (saved : List String) :
    (saved.length < 2 →
      openMindmapCombiner saved = [Effect.noticeNeedTwoMindmaps] ∧
      Effect.openCombinerModal ∉ openMindmapCombiner saved) ∧
    (Effect.openCombinerModal ∈ openMindmapCombiner saved ↔ 2 ≤ saved.length) := by
  unfold openMindmapCombiner
  by_cases h : saved.length < 2
  · rw [if_pos h]
    refine ⟨fun _ => ⟨rfl, by simp⟩, ?_⟩
    simp only [List.mem_singleton]
    constructor
    · intro he
      exact absurd he (by simp)
    · intro hle
      omega
  · rw [if_neg h]
    refine ⟨fun hlt => absurd hlt h, ?_⟩
    simp only [List.mem_singleton, true_iff]
    omega

/-- Witness for C10 with one saved mindmap: no modal, only the notice. -/
theorem claim10_combiner_gate_witness :
    openMindmapCombiner [strFile] = [Effect.noticeNeedTwoMindmaps] ∧
    Effect.openCombinerModal ∉ openMindmapCombiner [strFile] :=
  (claim10_combiner_gate [strFile]).1 (by decide)

/-- The pipeline-stage ranks contributed by the display/save step. -/
theorem coreStages_display (fmt : String) (autoSave : Bool) :
    coreStages (displayMindmap fmt autoSave) =
      (if fmt = strNote ∨ fmt = strBoth then [3] else []) ++
      (if fmt = strView ∨ fmt = strBoth then [4] else []) := by
  unfold displayMindmap coreStages
  by_cases h1 : fmt = strNote ∨ fmt = strBoth <;>
    by_cases h2 : fmt = strView ∨ fmt = strBoth <;>
      cases autoSave <;>
        simp [h1, h2, stageRank]

/-- Claim C5: the stages of generateMindmapFromSelection run in the
fixed order aggregation, model call, structure building, display/save
(the rank sequence of every trace is strictly increasing); zero
processed items mean the model is never called and nothing later
happens; an unsuccessful model response means no structure is built and
nothing is displayed or saved. -/
theorem claim5_pipeline (env : GenEnv) :
    (coreStages (generateMindmapFromSelection env)).Pairwise (· < ·) ∧
    (env.contents = [] →
      Effect.llmCall ∉ generateMindmapFromSelection env ∧
      Effect.buildStructure ∉ generateMindmapFromSelection env ∧
      Effect.createFile ∉ generateMindmapFromSelection env ∧
      Effect.openView ∉ generateMindmapFromSelection env) ∧
    (env.llmSuccess = false →
      Effect.buildStructure ∉ generateMindmapFromSelection env ∧
      Effect.createFile ∉ generateMindmapFromSelection env ∧
      Effect.openView ∉ generateMindmapFromSelection env) := by
  by_cases hk : env.apiKey = ""
  · have hg : generateMindmapFromSelection env = [Effect.noticeConfigureApiKey] := by
      unfold generateMindmapFromSelection
      rw [if_pos hk]
    simp only [hg]
    exact ⟨by decide, fun _ => by refine ⟨?_, ?_, ?_, ?_⟩ <;> decide,
      fun _ => by refine ⟨?_, ?_, ?_⟩ <;> decide⟩
  · by_cases hc : env.contents.length = 0
    · have hg : generateMindmapFromSelection env =
          [Effect.noticeAnalyzing, Effect.aggregateContent, Effect.noticeNoContent] := by
        unfold generateMindmapFromSelection
        rw [if_neg hk, if_pos hc]
      simp only [hg]
      exact ⟨by decide, fun _ => by refine ⟨?_, ?_, ?_, ?_⟩ <;> decide,
        fun _ => by refine ⟨?_, ?_, ?_⟩ <;> decide⟩
    · have hc' : ¬ env.contents = [] := fun h => hc (by simp [h])
      by_cases hs : env.llmSuccess = false
      · have hg : generateMindmapFromSelection env =
            [Effect.noticeAnalyzing, Effect.aggregateContent, Effect.llmCall,
             Effect.noticeLLMFailed] := by
          unfold generateMindmapFromSelection
          rw [if_neg hk, if_neg hc, if_pos hs]
        simp only [hg]
        exact ⟨by decide, fun h => absurd h hc',
          fun _ => by refine ⟨?_, ?_, ?_⟩ <;> decide⟩
      · have hg : generateMindmapFromSelection env =
            Effect.noticeAnalyzing :: Effect.aggregateContent :: Effect.llmCall ::
              Effect.buildStructure ::
                (displayMindmap env.outputFormat env.autoSave ++
                  [Effect.noticeSuccess]) := by
          unfold generateMindmapFromSelection
          rw [if_neg hk, if_neg hc, if_neg hs]
        refine ⟨?_, fun h => absurd h hc', fun h => absurd h hs⟩
        rw [hg]
        unfold displayMindmap coreStages
        by_cases h1 : env.outputFormat = strNote ∨ env.outputFormat = strBoth <;>
          by_cases h2 : env.outputFormat = strView ∨ env.outputFormat = strBoth <;>
            cases env.autoSave <;>
              simp [h1, h2, stageRank]

/-- Witness for C5 at a concrete keyed environment with zero processed
contents: the model is never called. -/
theorem claim5_pipeline_witness :
    Effect.llmCall ∉ generateMindmapFromSelection envNoContent ∧
    Effect.buildStructure ∉ generateMindmapFromSelection envNoContent ∧
    Effect.createFile ∉ generateMindmapFromSelection envNoContent ∧
    Effect.openView ∉ generateMindmapFromSelection envNoContent :=
  (claim5_pipeline envNoContent).2.1 rfl

/-! ## Linker lemmas and claim C3 -/

/-- Structural strong induction over the nested node tree. -/
theorem MindmapNode.strongInduction (P : MindmapNode → Prop)
    (h : ∀ i t c d tg s cs sp, (∀ x ∈ cs, P x) → P (.mk i t c d tg s cs sp)) :
    ∀ n, P n := by
  intro n
  induction n using allNodes.induct with
  | _ i t c d tg s cs sp ih =>
    exact h i t c d tg s cs sp (fun x hx => ih ⟨x, hx⟩)


/-- Plain (attach-free) equation for allNodes. -/
theorem allNodes_eq (i : Nat) (t : String) (c : Option String) (d : Nat)
    (tg s : List String) (cs : List MindmapNode) (sp : List Nat) :
    allNodes (.mk i t c d tg s cs sp) =
      .mk i t c d tg s cs sp :: (cs.map allNodes).flatten := by
  rw [allNodes, List.attach_map_val]

/-- Plain (attach-free) equation for subtreeIds. -/
theorem subtreeIds_eq (i : Nat) (t : String) (c : Option String) (d : Nat)
    (tg s : List String) (cs : List MindmapNode) (sp : List Nat) :
    subtreeIds (.mk i t c d tg s cs sp) = i :: (cs.map subtreeIds).flatten := by
  rw [subtreeIds, List.attach_map_val]

/-- A subtree's id list is its own id followed by its strict
descendants' ids. -/
theorem subtreeIds_decomp (n : MindmapNode) :
    subtreeIds n = n.id :: properDescIds n := by
  cases n with
  | mk i t c d tg s cs sp =>
    rw [subtreeIds_eq]
    rfl

/-- Plain (attach-free) equation for withLinks. -/
theorem withLinks_eq (f : Nat → List Nat) (i : Nat) (t : String)
    (c : Option String) (d : Nat) (tg s : List String)
    (cs : List MindmapNode) (sp : List Nat) :
    withLinks f (.mk i t c d tg s cs sp) =
      .mk i t c d tg s (cs.map (withLinks f)) (sp ++ f i) := by
  rw [withLinks, List.attach_map_val]

/-- withLinks keeps the id. -/
theorem withLinks_id (f : Nat → List Nat) (n : MindmapNode) :
    (withLinks f n).id = n.id := by
  cases n with
  | mk i t c d tg s cs sp => rw [withLinks_eq]; rfl

/-- withLinks appends exactly the chosen entries to the secondary set. -/
theorem withLinks_sp (f : Nat → List Nat) (n : MindmapNode) :
    (withLinks f n).secondaryParents = n.secondaryParents ++ f n.id := by
  cases n with
  | mk i t c d tg s cs sp => rw [withLinks_eq]; rfl

/-- withLinks keeps the subtree id list. -/
theorem subtreeIds_withLinks (f : Nat → List Nat) :
    ∀ n, subtreeIds (withLinks f n) = subtreeIds n := by
  intro n
  induction n using MindmapNode.strongInduction with
  | _ i t c d tg s cs sp ih =>
    rw [withLinks_eq, subtreeIds_eq, subtreeIds_eq, List.map_map]
    have : cs.map (subtreeIds ∘ withLinks f) = cs.map subtreeIds :=
      List.map_congr_left (fun x hx => ih x hx)
    rw [this]

/-- withLinks keeps the strict-descendant id list. -/
theorem properDescIds_withLinks (f : Nat → List Nat) (n : MindmapNode) :
    properDescIds (withLinks f n) = properDescIds n := by
  cases n with
  | mk i t c d tg s cs sp =>
    rw [withLinks_eq]
    unfold properDescIds
    show ((cs.map (withLinks f)).map subtreeIds).flatten = (cs.map subtreeIds).flatten
    rw [List.map_map]
    have : cs.map (subtreeIds ∘ withLinks f) = cs.map subtreeIds :=
      List.map_congr_left (fun x _ => subtreeIds_withLinks f x)
    rw [this]

/-- The preorder node list of a withLinks image is the pointwise image
of the preorder node list. -/
theorem allNodes_withLinks (f : Nat → List Nat) :
    ∀ n, allNodes (withLinks f n) = (allNodes n).map (withLinks f) := by
  intro n
  induction n using MindmapNode.strongInduction with
  | _ i t c d tg s cs sp ih =>
    rw [withLinks_eq, allNodes_eq, allNodes_eq, List.map_cons, ← withLinks_eq,
      List.map_flatten, List.map_map, List.map_map]
    have : cs.map (allNodes ∘ withLinks f) = cs.map (List.map (withLinks f) ∘ allNodes) :=
      List.map_congr_left (fun x hx => ih x hx)
    rw [this]

/-- withLinks changes no ancestry relation. -/
theorem inAncestry_withLinks (f : Nat → List Nat) (root : MindmapNode)
    (a b : Nat) :
    inAncestry (withLinks f root) a b = inAncestry root a b := by
  unfold inAncestry
  rw [allNodes_withLinks, List.any_map]
  have : ((fun m => (decide (m.id = a) && (subtreeIds m).contains b) ||
      (decide (m.id = b) && (subtreeIds m).contains a)) ∘ withLinks f) =
      (fun m => (decide (m.id = a) && (subtreeIds m).contains b) ||
      (decide (m.id = b) && (subtreeIds m).contains a)) := by
    funext m
    simp only [Function.comp_apply, withLinks_id, subtreeIds_withLinks]
  rw [this]

/-- Duplicate-freeness of the id list passes to every subtree. -/
theorem nodup_subtreeIds_mem :
    ∀ n, (subtreeIds n).Nodup → ∀ m ∈ allNodes n, (subtreeIds m).Nodup := by
  intro n
  induction n using MindmapNode.strongInduction with
  | _ i t c d tg s cs sp ih =>
    intro hnd m hm
    rw [allNodes_eq] at hm
    rcases List.mem_cons.mp hm with rfl | hmem
    · exact hnd
    · rw [List.mem_flatten] at hmem
      obtain ⟨L, hL, hmL⟩ := hmem
      rw [List.mem_map] at hL
      obtain ⟨x, hx, rfl⟩ := hL
      refine ih x hx ?_ m hmL
      rw [subtreeIds_eq] at hnd
      have htail := (List.nodup_cons.mp hnd).2
      have hsub : List.Sublist (subtreeIds x) ((cs.map subtreeIds).flatten) :=
        List.sublist_flatten_of_mem (List.mem_map_of_mem subtreeIds hx)
      exact htail.sublist hsub

/-- With duplicate-free ids, no node's id recurs among its own strict
descendants. -/
theorem not_self_desc (n : MindmapNode) (h : (subtreeIds n).Nodup) :
    n.id ∉ properDescIds n := by
  rw [subtreeIds_decomp] at h
  exact (List.nodup_cons.mp h).1

/-- Claim C3: after MultiParentLinker, no node is its own ancestor via
the primary-parent chain (its id never recurs among its strict
descendants), and no secondaryParents entry equals, or is an ancestor or
descendant of, its node; violating candidates were skipped, so the
output satisfies the exclusion invariant outright. -/
theorem claim3_linker_invariant (enabled : Bool)
    (overlap : String → String → Bool) (root : MindmapNode)
    (hids : (subtreeIds root).Nodup)
    (hsp : ∀ n ∈ allNodes root, n.secondaryParents = []) :
    (∀ n ∈ allNodes (multiParentLinker enabled overlap root),
      n.id ∉ properDescIds n) ∧
    (∀ n ∈ allNodes (multiParentLinker enabled overlap root),
      ∀ e ∈ n.secondaryParents,
        inAncestry (multiParentLinker enabled overlap root) n.id e = false) := by
  unfold multiParentLinker
  by_cases he : enabled
  · rw [if_pos he]
    constructor
    · intro n hn
      rw [allNodes_withLinks] at hn
      obtain ⟨m, hm, rfl⟩ := List.mem_map.mp hn
      rw [withLinks_id, properDescIds_withLinks]
      exact not_self_desc m (nodup_subtreeIds_mem root hids m hm)
    · intro n hn e he'
      rw [allNodes_withLinks] at hn
      obtain ⟨m, hm, rfl⟩ := List.mem_map.mp hn
      rw [withLinks_sp, hsp m hm, List.nil_append] at he'
      rw [inAncestry_withLinks, withLinks_id]
      unfold newLinks at he'
      rw [List.mem_map] at he'
      obtain ⟨p, hp, rfl⟩ := he'
      rw [List.mem_filter] at hp
      obtain ⟨hp1, hp2⟩ := hp
      unfold candidateLinks at hp1
      rw [List.mem_map] at hp1
      obtain ⟨q, hq, rfl⟩ := hp1
      rw [List.mem_filter] at hq
      have hfalse : inAncestry root q.1.id q.2.id = false := by
        have h2 := hq.2
        simp only [Bool.and_eq_true, Bool.not_eq_true'] at h2
        exact h2.2
      have hpm : q.1.id = m.id := of_decide_eq_true hp2
      rw [← hpm]
      exact hfalse
  · rw [if_neg he]
    constructor
    · intro n hn
      exact not_self_desc n (nodup_subtreeIds_mem root hids n hn)
    · intro n hn e he'
      rw [hsp n hn] at he'
      exact absurd he' (List.not_mem_nil e)

/-- Witness for C3: the two-branch shared-tag tree satisfies the
invariant after the linker runs with linking enabled. -/
theorem claim3_linker_invariant_witness :
    (∀ n ∈ allNodes (multiParentLinker true noOverlap linkTree),
      n.id ∉ properDescIds n) ∧
    (∀ n ∈ allNodes (multiParentLinker true noOverlap linkTree),
      ∀ e ∈ n.secondaryParents,
        inAncestry (multiParentLinker true noOverlap linkTree) n.id e = false) :=
  claim3_linker_invariant true noOverlap linkTree
    (by
      have h : subtreeIds linkTree = [0, 1, 2] := by
        simp [linkTree, subtreeIds_eq]
      rw [h]
      decide)
    (by
      have hb : (allNodes linkTree).all
          (fun n => n.secondaryParents.isEmpty) = true := by
        simp [linkTree, allNodes_eq, MindmapNode.secondaryParents]
      intro n hn
      have hx := List.all_eq_true.mp hb n hn
      simpa using hx)

/-! ## Combiner lemmas and claims C7, C2 -/

/-- Membership in the unified schema is membership in some input
schema. -/
theorem mem_unionSchemas_aux (ms : List Mindmap) :
    ∀ acc x,
      x ∈ ms.foldl (fun acc m => m.categorySchema.foldl addUnique acc) acc ↔
        x ∈ acc ∨ ∃ m ∈ ms, x ∈ m.categorySchema := by
  induction ms with
  | nil => intro acc x; simp
  | cons m ms ih =>
    intro acc x
    rw [List.foldl_cons, ih, mem_foldl_addUnique]
    simp [or_assoc, List.mem_cons]

/-- Membership in the unified schema. -/
theorem mem_unionSchemas (ms : List Mindmap) (x : String) :
    x ∈ unionSchemas ms ↔ ∃ m ∈ ms, x ∈ m.categorySchema := by
  unfold unionSchemas
  rw [mem_unionSchemas_aux]
  simp

/-- Plain (attach-free) equation for clearSp. -/
theorem clearSp_eq (i : Nat) (t : String) (c : Option String) (d : Nat)
    (tg s : List String) (cs : List MindmapNode) (sp : List Nat) :
    clearSp (.mk i t c d tg s cs sp) =
      .mk i t c d tg s (cs.map clearSp) [] := by
  rw [clearSp, List.attach_map_val]

/-- clearSp keeps title and category. -/
theorem clearSp_meta (n : MindmapNode) :
    (clearSp n).title = n.title ∧ (clearSp n).category = n.category := by
  cases n with
  | mk i t c d tg s cs sp => rw [clearSp_eq]; exact ⟨rfl, rfl⟩

/-- withLinks keeps title and category. -/
theorem withLinks_meta (f : Nat → List Nat) (n : MindmapNode) :
    (withLinks f n).title = n.title ∧ (withLinks f n).category = n.category := by
  cases n with
  | mk i t c d tg s cs sp => rw [withLinks_eq]; exact ⟨rfl, rfl⟩

/-- withLinks maps the children pointwise. -/
theorem withLinks_children (f : Nat → List Nat) (n : MindmapNode) :
    (withLinks f n).children = n.children.map (withLinks f) := by
  cases n with
  | mk i t c d tg s cs sp => rw [withLinks_eq]; rfl

/-- Renumbering keeps every forest node's title and category. -/
theorem reindexForest_meta :
    ∀ (cs : List MindmapNode) (k d : Nat),
      ((reindexForest k d cs).1).map (fun u => (u.title, u.category)) =
        cs.map (fun u => (u.title, u.category)) := by
  intro cs
  induction cs with
  | nil => intro k d; rfl
  | cons n ns ih =>
    intro k d
    rw [reindexForest]
    cases n with
    | mk i t c dep tg s ncs sp =>
      rw [reindexNode]
      simp only [List.map_cons]
      rw [ih]
      rfl

/-- The combined forest's titles and categories are the unified schema
entries, each naming itself, followed by the synthetic Uncategorized
node exactly when an orphan exists. -/
theorem combinedForest_meta (ms : List Mindmap) :
    (combinedForest ms).map (fun u => (u.title, u.category)) =
      (unionSchemas ms).map (fun c => (c, some c)) ++
      (if orphanExists ms (unionSchemas ms) then
        [(strUncategorized, some strUncategorized)] else []) := by
  unfold combinedForest
  rw [List.map_append, List.map_map]
  have h1 : (unionSchemas ms).map
      ((fun u : MindmapNode => (u.title, u.category)) ∘
        (fun c => mkCatNode c (slotChildren ms (unionSchemas ms) c))) =
      (unionSchemas ms).map (fun c => (c, some c)) :=
    List.map_congr_left (fun c _ => rfl)
  rw [h1]
  congr 1
  by_cases horph : orphanExists ms (unionSchemas ms) <;>
    simp [horph, mkCatNode, MindmapNode.title, MindmapNode.category]

/-- A successful combine exists exactly under all-nonempty schemas, and
its root children carry the unified schema's titles and categories. -/
theorem combine_ok_meta (overlap : String → String → Bool) (ms : List Mindmap)
    (h : ms.any (fun m => m.categorySchema.isEmpty) = false) :
    ∃ r, combine overlap ms = .ok r ∧
      r.root.children.map (fun u => (u.title, u.category)) =
        (unionSchemas ms).map (fun c => (c, some c)) ++
        (if orphanExists ms (unionSchemas ms) then
          [(strUncategorized, some strUncategorized)] else []) := by
  unfold combine
  rw [if_neg (by simp [h])]
  refine ⟨_, rfl, ?_⟩
  unfold multiParentLinker
  rw [if_pos rfl, withLinks_children, List.map_map]
  have hpt : ∀ u : MindmapNode,
      ((fun u : MindmapNode => (u.title, u.category)) ∘
        withLinks (newLinks overlap
          (reindexNode 0 0 (clearSp
            (.mk 0 emptyStr none 0 [] [] (combinedForest ms) []))).1)) u =
        (u.title, u.category) := by
    intro u
    simp only [Function.comp_apply]
    rw [(withLinks_meta _ u).1, (withLinks_meta _ u).2]
  rw [List.map_congr_left (fun u _ => hpt u)]
  rw [clearSp_eq, reindexNode]
  show ((reindexForest 1 1 ((combinedForest ms).map clearSp)).1).map
      (fun u => (u.title, u.category)) = _
  rw [reindexForest_meta, List.map_map]
  have hcl : ∀ u : MindmapNode,
      ((fun u : MindmapNode => (u.title, u.category)) ∘ clearSp) u =
        (u.title, u.category) := by
    intro u
    simp only [Function.comp_apply]
    rw [(clearSp_meta u).1, (clearSp_meta u).2]
  rw [List.map_congr_left (fun u _ => hcl u)]
  exact combinedForest_meta ms

/-- A subtree of an input depth-1 node lands in the graft pool of its
own category. -/
theorem mem_slotChildren (ms : List Mindmap) (unified : List String)
    (c : String) (s n : MindmapNode) (m : Mindmap)
    (hm : m ∈ ms) (hn : n ∈ depth1 m) (hno : isOrphan unified n = false)
    (hc : n.category = some c) (hs : s ∈ n.children) :
    s ∈ slotChildren ms unified c := by
  unfold slotChildren
  rw [List.mem_flatten]
  refine ⟨n.children, ?_, hs⟩
  rw [List.mem_map]
  refine ⟨n, ?_, rfl⟩
  rw [List.mem_flatten]
  refine ⟨(depth1 m).filter
    (fun n => !isOrphan unified n && decide (n.category = some c)), ?_, ?_⟩
  · exact List.mem_map_of_mem _ hm
  · rw [List.mem_filter]
    exact ⟨hn, by simp [hno, hc]⟩

/-- Claim C7: combine fails with CombineError exactly when some input's
categorySchema is empty (absent is modelled as empty); all-nonempty
schemas always combine successfully; a category name found in the
unified schema is never reassigned; the Uncategorized fallback only
targets nodes whose category name is absent from every supplied schema
(or who carry none, or already carry the fallback name); and the
synthetic Uncategorized root child exists exactly when such an orphan
exists. -/
theorem claim7_combine_errors (overlap : String → String → Bool)
    (ms : List Mindmap) :
    ((∃ e, combine overlap ms = .error e) ↔ ∃ m ∈ ms, m.categorySchema = []) ∧
    ((∀ m ∈ ms, m.categorySchema ≠ []) → ∃ r, combine overlap ms = .ok r) ∧
    (∀ m ∈ ms, ∀ n ∈ depth1 m, ∀ c, n.category = some c →
      c ∈ unionSchemas ms → targetCat (unionSchemas ms) n = c) ∧
    (∀ m ∈ ms, ∀ n ∈ depth1 m,
      targetCat (unionSchemas ms) n = strUncategorized →
      n.category = none ∨ ∃ c, n.category = some c ∧
        (c = strUncategorized ∨ ∀ m2 ∈ ms, c ∉ m2.categorySchema)) ∧
    (∀ r, combine overlap ms = .ok r → strUncategorized ∉ unionSchemas ms →
      ((∃ u ∈ r.root.children, u.title = strUncategorized ∧
          u.category = some strUncategorized) ↔
        orphanExists ms (unionSchemas ms) = true)) := by
  refine ⟨?_, ?_, ?_, ?_, ?_⟩
  · constructor
    · rintro ⟨e, he⟩
      unfold combine at he
      by_cases hany : ms.any (fun m => m.categorySchema.isEmpty) = true
      · obtain ⟨m, hm, hemp⟩ := List.any_eq_true.mp hany
        exact ⟨m, hm, by simpa using hemp⟩
      · rw [if_neg (by simpa using hany)] at he
        exact Except.noConfusion he
    · rintro ⟨m, hm, hempty⟩
      refine ⟨.missingSchema, ?_⟩
      unfold combine
      rw [if_pos (List.any_eq_true.mpr ⟨m, hm, by simp [hempty]⟩)]
  · intro hne
    have hany : ms.any (fun m => m.categorySchema.isEmpty) = false := by
      rw [List.any_eq_false]
      intro m hm
      simp [hne m hm]
    obtain ⟨r, hok, _⟩ := combine_ok_meta overlap ms hany
    exact ⟨r, hok⟩
  · intro m hm n hn c hc hcu
    unfold targetCat
    rw [hc]
    show (if (unionSchemas ms).contains c = true then c else strUncategorized) = c
    rw [if_pos (List.elem_eq_true_of_mem hcu)]
  · intro m hm n hn htc
    unfold targetCat at htc
    cases hcat : n.category with
    | none => exact Or.inl rfl
    | some c =>
      rw [hcat] at htc
      right
      refine ⟨c, rfl, ?_⟩
      have htc2 : (if (unionSchemas ms).contains c = true then c
          else strUncategorized) = strUncategorized := htc
      by_cases hin : (unionSchemas ms).contains c = true
      · rw [if_pos hin] at htc2
        exact Or.inl htc2
      · right
        intro m2 hm2 hmem
        exact hin
          (List.elem_eq_true_of_mem ((mem_unionSchemas ms c).mpr ⟨m2, hm2, hmem⟩))
  · intro r hok hnu
    have hany : ms.any (fun m => m.categorySchema.isEmpty) = false := by
      cases hq : ms.any (fun m => m.categorySchema.isEmpty) with
      | false => rfl
      | true =>
        exfalso
        unfold combine at hok
        rw [if_pos hq] at hok
        exact Except.noConfusion hok
    obtain ⟨r0, hok0, hmeta⟩ := combine_ok_meta overlap ms hany
    rw [hok] at hok0
    obtain rfl : r = r0 := Except.ok.inj hok0
    constructor
    · rintro ⟨u, hu, htit, hcat⟩
      have hpair : (strUncategorized, some strUncategorized) ∈
          r.root.children.map (fun u => (u.title, u.category)) := by
        rw [List.mem_map]
        exact ⟨u, hu, by rw [htit, hcat]⟩
      rw [hmeta] at hpair
      rcases List.mem_append.mp hpair with hl | hr2
      · rw [List.mem_map] at hl
        obtain ⟨c, hc, hceq⟩ := hl
        have hcu : c = strUncategorized := congrArg Prod.fst hceq
        rw [hcu] at hc
        exact absurd hc hnu
      · by_cases horph : orphanExists ms (unionSchemas ms) = true
        · exact horph
        · rw [if_neg horph] at hr2
          exact absurd hr2 (List.not_mem_nil _)
    · intro horph
      rw [if_pos horph] at hmeta
      have hpair : (strUncategorized, some strUncategorized) ∈
          r.root.children.map (fun u => (u.title, u.category)) := by
        rw [hmeta]
        exact List.mem_append.mpr (Or.inr (by simp))
      rw [List.mem_map] at hpair
      obtain ⟨u, hu, hueq⟩ := hpair
      exact ⟨u, hu, congrArg Prod.fst hueq, congrArg Prod.snd hueq⟩

/-- Witness for C7: an input with an empty schema makes combine fail. -/
theorem claim7_combine_errors_witness :
    ∃ e, combine noOverlap [mapNoSchema] = .error e :=
  (claim7_combine_errors noOverlap [mapNoSchema]).1.mpr
    ⟨mapNoSchema, by simp, rfl⟩

/-- Claim C2: under well-formed inputs (each depth-1 node declaring a
category of its own schema), combine succeeds and: every depth-1
category present in any input appears unchanged (same name, same
category) among the output's depth-1 nodes; the graft target of every
depth-1 node is exactly its own category, never a different one; and
every child subtree of a depth-1 node lands, unchanged, in the graft
pool of exactly its source category. -/
theorem claim2_no_misplacement (overlap : String → String → Bool)
    (ms : List Mindmap)
    (hne : ∀ m ∈ ms, m.categorySchema ≠ [])
    (hwf : ∀ m ∈ ms, ∀ n ∈ depth1 m,
      ∃ c, n.category = some c ∧ c ∈ m.categorySchema) :
    ∃ r, combine overlap ms = .ok r ∧
      (∀ m ∈ ms, ∀ n ∈ depth1 m, ∀ c, n.category = some c →
        ∃ u ∈ r.root.children, u.title = c ∧ u.category = some c) ∧
      (∀ m ∈ ms, ∀ n ∈ depth1 m, ∀ c, n.category = some c →
        targetCat (unionSchemas ms) n = c) ∧
      (∀ m ∈ ms, ∀ n ∈ depth1 m, ∀ c, n.category = some c →
        ∀ s ∈ n.children, s ∈ slotChildren ms (unionSchemas ms) c) := by
  have hany : ms.any (fun m => m.categorySchema.isEmpty) = false := by
    rw [List.any_eq_false]
    intro m hm
    simp [hne m hm]
  obtain ⟨r, hok, hmeta⟩ := combine_ok_meta overlap ms hany
  have hmem : ∀ m ∈ ms, ∀ n ∈ depth1 m, ∀ c, n.category = some c →
      c ∈ unionSchemas ms := by
    intro m hm n hn c hc
    obtain ⟨c', hc', hmemc⟩ := hwf m hm n hn
    rw [hc] at hc'
    obtain rfl : c = c' := Option.some.inj hc'
    exact (mem_unionSchemas ms c).mpr ⟨m, hm, hmemc⟩
  refine ⟨r, hok, ?_, ?_, ?_⟩
  · intro m hm n hn c hc
    have hpair : (c, some c) ∈
        r.root.children.map (fun u => (u.title, u.category)) := by
      rw [hmeta]
      exact List.mem_append.mpr
        (Or.inl (List.mem_map.mpr ⟨c, hmem m hm n hn c hc, rfl⟩))
    rw [List.mem_map] at hpair
    obtain ⟨u, hu, hueq⟩ := hpair
    exact ⟨u, hu, congrArg Prod.fst hueq, congrArg Prod.snd hueq⟩
  · intro m hm n hn c hc
    unfold targetCat
    rw [hc]
    show (if (unionSchemas ms).contains c = true then c else strUncategorized) = c
    rw [if_pos (List.elem_eq_true_of_mem (hmem m hm n hn c hc))]
  · intro m hm n hn c hc s hs
    refine mem_slotChildren ms (unionSchemas ms) c s n m hm hn ?_ hc hs
    unfold isOrphan
    rw [hc]
    have hcont : (unionSchemas ms).contains c = true :=
      List.elem_eq_true_of_mem (hmem m hm n hn c hc)
    show (!(unionSchemas ms).contains c) = false
    rw [hcont]
    rfl

/-- Witness for C2 at the spec's two-tree scenario: both categories and
both leaves combine with no cross-assignment. -/
theorem claim2_no_misplacement_witness :
    ∃ r, combine noOverlap [mapA, mapB] = .ok r ∧
      (∀ m ∈ [mapA, mapB], ∀ n ∈ depth1 m, ∀ c, n.category = some c →
        ∃ u ∈ r.root.children, u.title = c ∧ u.category = some c) ∧
      (∀ m ∈ [mapA, mapB], ∀ n ∈ depth1 m, ∀ c, n.category = some c →
        targetCat (unionSchemas [mapA, mapB]) n = c) ∧
      (∀ m ∈ [mapA, mapB], ∀ n ∈ depth1 m, ∀ c, n.category = some c →
        ∀ s ∈ n.children, s ∈ slotChildren [mapA, mapB]
          (unionSchemas [mapA, mapB]) c) :=
  claim2_no_misplacement noOverlap [mapA, mapB]
    (by
      intro m hm
      rcases List.mem_cons.mp hm with rfl | hm2
      · decide
      · rcases List.mem_singleton.mp hm2 with rfl
        decide)
    (by
      intro m hm
      rcases List.mem_cons.mp hm with rfl | hm2
      · intro n hn
        have hd : depth1 mapA =
            [.mk 1 strTech (some strTech) 1 [] []
              [.mk 2 strAI none 2 [] [] [] []] []] := rfl
        rw [hd] at hn
        rcases List.mem_singleton.mp hn with rfl
        exact ⟨strTech, rfl, by decide⟩
      · rcases List.mem_singleton.mp hm2 with rfl
        intro n hn
        have hd : depth1 mapB =
            [.mk 1 strEcon (some strEcon) 1 [] []
              [.mk 2 strMarket none 2 [] [] [] []] []] := rfl
        rw [hd] at hn
        rcases List.mem_singleton.mp hn with rfl
        exact ⟨strEcon, rfl, by decide⟩)

/-! ## Round-trip lemmas and claim C1 -/

/-- Parsing recovers the depth of a canonically rendered line. -/
theorem lineDepth_eq (l : Line) (e : Nat) (he : 1 ≤ e)
    (hm : l.marker = markerFor e) (hi : l.indent = indentFor e) :
    lineDepth l = e := by
  unfold lineDepth
  rw [hm, hi]
  unfold markerFor indentFor
  by_cases h1 : e = 1
  · simp [h1]
  · simp [h1]
    omega

/-- Plain (attach-free) equation for renderNode. -/
theorem renderNode_eq (root : MindmapNode) (d : Nat) (i : Nat) (t : String)
    (c : Option String) (dep : Nat) (tg s : List String)
    (cs : List MindmapNode) (sp : List Nat) :
    renderNode root d (.mk i t c dep tg s cs sp) =
      ⟨markerFor d, indentFor d, t, sp.filterMap (titleOfId root)⟩
        :: (cs.map (renderNode root (d + 1))).flatten := by
  rw [renderNode, List.attach_map_val]

/-- Plain (attach-free) equation for toP. -/
theorem toP_eq (root : MindmapNode) (i : Nat) (t : String) (c : Option String)
    (dep : Nat) (tg s : List String) (cs : List MindmapNode) (sp : List Nat) :
    toP root (.mk i t c dep tg s cs sp) =
      .mk t (sp.filterMap (titleOfId root)) (cs.map (toP root)) := by
  rw [toP, List.attach_map_val]

/-- Plain (attach-free) equation for pTitles. -/
theorem pTitles_eq (t : String) (a : List String) (cs : List PNode) :
    pTitles (.mk t a cs) = t :: (cs.map pTitles).flatten := by
  rw [pTitles, List.attach_map_val]

/-- Plain (attach-free) equation for nodeTitles. -/
theorem nodeTitles_eq (i : Nat) (t : String) (c : Option String) (dep : Nat)
    (tg s : List String) (cs : List MindmapNode) (sp : List Nat) :
    nodeTitles (.mk i t c dep tg s cs sp) = t :: (cs.map nodeTitles).flatten := by
  rw [nodeTitles, List.attach_map_val]

/-- Strong induction over forests of nodes: a forest property closed
under the empty forest and under prepending a node whose children
satisfy it. -/
theorem forestStrongInduction (P : List MindmapNode → Prop)
    (hnil : P [])
    (hcons : ∀ i t c d tg s cs sp ts, P cs → P ts →
      P (.mk i t c d tg s cs sp :: ts)) :
    ∀ ts, P ts := by
  have key : ∀ N ts, sizeOf ts ≤ N → P ts := by
    intro N
    induction N with
    | zero =>
      intro ts h
      cases ts with
      | nil => exact hnil
      | cons n ts' =>
        exfalso
        have h1 : sizeOf (n :: ts') = 1 + sizeOf n + sizeOf ts' := rfl
        omega
    | succ N ih =>
      intro ts h
      cases ts with
      | nil => exact hnil
      | cons n ts' =>
        cases n with
        | mk i t c d tg s cs sp =>
          have h1 : sizeOf (MindmapNode.mk i t c d tg s cs sp :: ts') =
              1 + sizeOf (MindmapNode.mk i t c d tg s cs sp) + sizeOf ts' := rfl
          have h2 := MindmapNode.mk.sizeOf_spec i t c d tg s cs sp
          exact hcons i t c d tg s cs sp ts'
            (ih cs (by omega)) (ih ts' (by omega))
  exact fun ts => key (sizeOf ts) ts le_rfl

/-- The canonical line of depth d parses back to depth d. -/
theorem lineDepth_mk (d : Nat) (t : String) (a : List String) (hd : 1 ≤ d) :
    lineDepth ⟨markerFor d, indentFor d, t, a⟩ = d :=
  lineDepth_eq _ d hd rfl rfl

/-- The parser-side titles of a shape are the node's preorder titles. -/
theorem pTitles_toP (root : MindmapNode) :
    ∀ n, pTitles (toP root n) = nodeTitles n := by
  intro n
  induction n using MindmapNode.strongInduction with
  | _ i t c d tg s cs sp ih =>
    rw [toP_eq, pTitles_eq, nodeTitles_eq, List.map_map]
    have : cs.map (pTitles ∘ toP root) = cs.map nodeTitles :=
      List.map_congr_left (fun x hx => ih x hx)
    rw [this]

/-- The parser's annotation index of the rendered document equals the
tree's preorder forest titles. -/
theorem pTitlesF_toP (root : MindmapNode) (cs : List MindmapNode) :
    pTitlesF (cs.map (toP root)) = (cs.map nodeTitles).flatten := by
  unfold pTitlesF
  rw [List.map_map]
  have : cs.map (pTitles ∘ toP root) = cs.map nodeTitles :=
    List.map_congr_left (fun x _ => pTitles_toP root x)
  rw [this]

/-- Rebuilding the secondary set from the rendered annotation titles
recovers exactly the original entries, node by node, whenever the titles
resolve first-match back to their targets. -/
theorem sp_rebuild (root n : MindmapNode) (hsp : spOk root n = true) :
    ((n.secondaryParents.filterMap (titleOfId root)).filterMap
      (fun s => ((forestTitles root).findIdx? (fun u => u = s)).map (· + 1))) =
      n.secondaryParents := by
  rw [List.filterMap_filterMap]
  have hpt : ∀ e ∈ n.secondaryParents,
      ((titleOfId root e).bind
        (fun s => ((forestTitles root).findIdx? (fun u => u = s)).map (· + 1))) =
        some e := by
    intro e he
    unfold spOk at hsp
    have h := List.all_eq_true.mp hsp e he
    cases hfind : (allNodes root).find? (fun m => m.id = e) with
    | none => rw [hfind] at h; exact absurd h (by simp)
    | some m =>
      rw [hfind] at h
      rw [Bool.and_eq_true, decide_eq_true_iff, decide_eq_true_iff] at h
      obtain ⟨h1, h2⟩ := h
      have htit : titleOfId root e = some m.title := by
        unfold titleOfId
        rw [hfind]
        rfl
      rw [htit, Option.some_bind, h2]
      show some (e - 1 + 1) = some e
      congr 1
      omega
  rw [List.filterMap_congr hpt, List.filterMap_some]

/-- The first line of a rendered forest followed by a guarded rest is
never at or above the child depth. -/
theorem head_renderF (root : MindmapNode) (ts : List MindmapNode) (d : Nat)
    (rest : List Line) (hd : 1 ≤ d)
    (hrest : ∀ l, rest.head? = some l → lineDepth l < d) :
    ∀ l, ((ts.map (renderNode root d)).flatten ++ rest).head? = some l →
      lineDepth l < d + 1 := by
  cases ts with
  | nil =>
    intro l hl
    simp only [List.map_nil, List.flatten_nil, List.nil_append] at hl
    exact Nat.lt_succ_of_lt (hrest l hl)
  | cons n ts' =>
    cases n with
    | mk i t c dep tg s cs sp =>
      intro l hl
      rw [List.map_cons, renderNode_eq, List.flatten_cons] at hl
      simp only [List.cons_append, List.head?_cons, Option.some.injEq] at hl
      rw [← hl, lineDepth_mk d t _ hd]
      omega

/-- Structural parsing inverts rendering: the lines of a forest rendered
at depth d, followed by any rest whose first line is shallower, parse
into exactly the forest's shapes, leaving the rest unconsumed. -/
theorem parseForest_renderF (root : MindmapNode) :
    ∀ ts : List MindmapNode, ∀ d rest fuel,
      1 ≤ d →
      2 * ((ts.map (renderNode root d)).flatten).length + 1 ≤ fuel →
      (∀ l, rest.head? = some l → lineDepth l < d) →
      parseForest fuel d ((ts.map (renderNode root d)).flatten ++ rest) =
        (ts.map (toP root), rest) := by
  intro ts
  induction ts using forestStrongInduction with
  | hnil =>
    intro d rest fuel hd hfuel hrest
    simp only [List.map_nil, List.flatten_nil, List.nil_append]
    simp only [List.map_nil, List.flatten_nil, List.length_nil] at hfuel
    cases fuel with
    | zero => omega
    | succ f =>
      cases rest with
      | nil => rfl
      | cons l ls =>
        have hne : lineDepth l ≠ d := Nat.ne_of_lt (hrest l rfl)
        simp only [parseForest, if_neg hne]
  | hcons i t c dep tg s cs sp ts' ihc iht =>
    intro d rest fuel hd hfuel hrest
    rw [List.map_cons, renderNode_eq, List.flatten_cons] at hfuel ⊢
    simp only [List.cons_append, List.append_assoc]
    simp only [List.length_append, List.length_cons] at hfuel
    cases fuel with
    | zero => omega
    | succ f =>
      have hpc : parseForest f (d + 1)
          ((cs.map (renderNode root (d + 1))).flatten ++
            ((ts'.map (renderNode root d)).flatten ++ rest)) =
          (cs.map (toP root), (ts'.map (renderNode root d)).flatten ++ rest) :=
        ihc (d + 1) _ f (by omega) (by omega)
          (head_renderF root ts' d rest hd hrest)
      have hps : parseForest f d
          ((ts'.map (renderNode root d)).flatten ++ rest) =
          (ts'.map (toP root), rest) :=
        iht d rest f hd (by omega) hrest
      simp only [parseForest]
      rw [if_pos (lineDepth_mk d t _ hd)]
      simp only [hpc, hps]
      rw [List.map_cons, toP_eq]

/-- Introduction rule for structural equality of two nodes: equal id,
title and depth, set-equal secondary parents, and pointwise structurally
equal children of equal count. -/
theorem structEqB_intro (i : Nat) (t : String) (ca cb : Option String)
    (d : Nat) (tga tgb sa sb : List String) (csa csb : List MindmapNode)
    (spa spb : List Nat)
    (hsp1 : ∀ x ∈ spa, x ∈ spb) (hsp2 : ∀ x ∈ spb, x ∈ spa)
    (hlen : csa.length = csb.length)
    (hrec : ∀ p ∈ csa.zip csb, structEqB p.1 p.2 = true) :
    structEqB (.mk i t ca d tga sa csa spa) (.mk i t cb d tgb sb csb spb) = true := by
  rw [structEqB]
  simp only [Bool.and_eq_true, decide_eq_true_eq, List.all_eq_true]
  refine ⟨⟨⟨⟨⟨⟨trivial, trivial⟩, trivial⟩, ?_⟩, ?_⟩, hlen⟩, ?_⟩
  · intro x hx
    exact List.elem_eq_true_of_mem (hsp1 x hx)
  · intro x hx
    exact List.elem_eq_true_of_mem (hsp2 x hx)
  · intro x _
    exact hrec x.1 x.2

/-- Rebuilding the parsed shapes with preorder numbering reproduces the
original forest structurally, whenever the original ids and depths are
the preorder assignment from the given start values and every secondary
entry of every node resolves first-match to its own target. -/
theorem buildForest_toP (root : MindmapNode) :
    ∀ ts : List MindmapNode, ∀ k d k2,
      checkShapeF k d ts = some k2 →
      (∀ m ∈ (ts.map allNodes).flatten, spOk root m = true) →
      ∃ bs, buildForest (forestTitles root) k d (ts.map (toP root)) = (bs, k2) ∧
        bs.length = ts.length ∧
        ∀ p ∈ bs.zip ts, structEqB p.1 p.2 = true := by
  intro ts
  induction ts using forestStrongInduction with
  | hnil =>
    intro k d k2 hchk hsp
    simp only [checkShapeF] at hchk
    obtain rfl : k = k2 := Option.some.inj hchk
    refine ⟨[], ?_, rfl, ?_⟩
    · simp only [List.map_nil, buildForest]
    · intro p hp
      cases hp
  | hcons i t c dep tg s cs sp ts' ihc iht =>
    intro k d k2 hchk hsp
    simp only [checkShapeF, checkShape] at hchk
    by_cases hcond : i = k ∧ dep = d
    · obtain ⟨rfl, rfl⟩ := hcond
      rw [if_pos ⟨rfl, rfl⟩] at hchk
      cases hck : checkShapeF (i + 1) (dep + 1) cs with
      | none =>
        rw [hck] at hchk
        exact absurd hchk (by simp)
      | some kk =>
        rw [hck] at hchk
        have hspn : spOk root (.mk i t c dep tg s cs sp) = true := by
          apply hsp
          rw [List.map_cons, List.flatten_cons]
          refine List.mem_append.mpr (Or.inl ?_)
          rw [allNodes_eq]
          exact List.mem_cons_self _ _
        have hspc : ∀ m ∈ (cs.map allNodes).flatten, spOk root m = true := by
          intro m hm
          apply hsp
          rw [List.map_cons, List.flatten_cons]
          refine List.mem_append.mpr (Or.inl ?_)
          rw [allNodes_eq]
          exact List.mem_cons_of_mem _ hm
        have hspt : ∀ m ∈ (ts'.map allNodes).flatten, spOk root m = true := by
          intro m hm
          apply hsp
          rw [List.map_cons, List.flatten_cons]
          exact List.mem_append.mpr (Or.inr hm)
        obtain ⟨bsc, hbc, hlc, hzc⟩ := ihc (i + 1) (dep + 1) kk hck hspc
        obtain ⟨bst, hbt, hlt, hzt⟩ := iht kk dep k2 hchk hspt
        have hrebuild :
            ((sp.filterMap (titleOfId root)).filterMap
              (fun s => ((forestTitles root).findIdx?
                (fun u => u = s)).map (· + 1))) = sp := by
          have h := sp_rebuild root (.mk i t c dep tg s cs sp) hspn
          simpa only [MindmapNode.secondaryParents] using h
        refine ⟨.mk i t none dep [] [] bsc sp :: bst, ?_, ?_, ?_⟩
        · rw [List.map_cons, toP_eq]
          simp only [buildForest, buildNode]
          rw [hbc, hbt, hrebuild]
        · simp only [List.length_cons, hlt]
        · intro p hp
          rw [List.zip_cons_cons] at hp
          rcases List.mem_cons.mp hp with rfl | hp2
          · exact structEqB_intro i t none c dep [] tg [] s bsc cs sp sp
              (fun x hx => hx) (fun x hx => hx) hlc hzc
          · exact hzt p hp2
    · rw [if_neg hcond] at hchk
      exact absurd hchk (by simp)

/-- Claim C1: for every serializer-well-formed tree (preorder ids and
depths from the builder's depth-first creation order, unrendered root,
first-match-resolvable secondary annotations), parsing the rendered
outline document yields a tree structurally equal to the original —
identical ids, titles, depths and children order, and the same
secondaryParents up to set ordering (here recovered exactly). -/
theorem claim1_roundtrip (root : MindmapNode) (h : wellFormedSer root = true) :
    ∃ r, parse (render root) = some r ∧ structEqB r root = true := by
  unfold wellFormedSer at h
  simp only [Bool.and_eq_true, decide_eq_true_eq, Option.isSome_iff_exists] at h
  obtain ⟨⟨⟨⟨⟨hid, htit⟩, hdep⟩, hsp0⟩, ⟨k2, hshape⟩⟩, hres⟩ := h
  cases root with
  | mk i t c dep tg s cs sp =>
    simp only [MindmapNode.id] at hid
    simp only [MindmapNode.title] at htit
    simp only [MindmapNode.depth] at hdep
    simp only [MindmapNode.secondaryParents] at hsp0
    subst hid htit hdep hsp0
    simp only [checkShape] at hshape
    rw [if_pos ⟨trivial, trivial⟩] at hshape
    have hspall : ∀ m ∈ (cs.map allNodes).flatten,
        spOk (.mk 0 emptyStr c 0 tg s cs []) m = true := by
      intro m hm
      unfold spResolvable at hres
      refine List.all_eq_true.mp hres m ?_
      rw [allNodes_eq]
      exact List.mem_cons_of_mem _ hm
    have hrender : render (.mk 0 emptyStr c 0 tg s cs []) =
        (cs.map (renderNode (.mk 0 emptyStr c 0 tg s cs []) 1)).flatten := by
      unfold render
      rfl
    have hpf := parseForest_renderF (.mk 0 emptyStr c 0 tg s cs []) cs 1 []
      (2 * ((cs.map (renderNode (.mk 0 emptyStr c 0 tg s cs []) 1)).flatten).length + 1)
      (by omega) (by omega)
      (by intro l hl; exact absurd hl (by simp))
    rw [List.append_nil] at hpf
    have hidx : pTitlesF (cs.map (toP (.mk 0 emptyStr c 0 tg s cs []))) =
        forestTitles (.mk 0 emptyStr c 0 tg s cs []) := by
      rw [pTitlesF_toP]
      rfl
    obtain ⟨bs, hb, hlen, hzip⟩ :=
      buildForest_toP (.mk 0 emptyStr c 0 tg s cs []) cs 1 1 k2 hshape hspall
    refine ⟨.mk 0 emptyStr none 0 [] [] bs [], ?_, ?_⟩
    · unfold parse
      rw [hrender, hpf]
      simp only [List.append_nil]
      rw [if_pos trivial, hidx, hb]
    · exact structEqB_intro 0 emptyStr none c 0 [] tg [] s bs cs [] []
        (fun x hx => hx) (fun x hx => hx) hlen hzip

/-- Witness for C1 at a concrete well-formed tree carrying one
cross-branch secondary annotation. -/
theorem claim1_roundtrip_witness :
    ∃ r, parse (render wfTree) = some r ∧ structEqB r wfTree = true :=
  claim1_roundtrip wfTree
    (by
      simp [wellFormedSer, wfTree, checkShape, checkShapeF, spResolvable, spOk,
        allNodes_eq, forestTitles, nodeTitles_eq, titleOfId,
        MindmapNode.id, MindmapNode.title, MindmapNode.depth,
        MindmapNode.secondaryParents, MindmapNode.children,
        strTech, strEcon, strAI, strMarket, emptyStr, List.findIdx?])

/-! ## Claim theorem for the category arbitration (C6) -/

/-- Claim C6: under weighting high a conflicting tag suggestion beats
the model suggestion, and in the spec's scenario a node tagged
deeptech/quantum-ai with model suggestion General resolves to the
category derived from the tag's first segment, deeptech. -/
theorem claim6_high_tag_wins (m t : String) (cm ct : Nat) (hne : m ≠ t) :
    resolveCategory .high (some m) (some t) cm ct = some t ∧
    resolveTag [strDeeptech, strGeneral] tagDeeptechQuantum = some strDeeptech ∧
    resolveCategory .high (some strGeneral)
      (resolveTag [strDeeptech, strGeneral] tagDeeptechQuantum) cm ct =
        some strDeeptech := by
  have hscen : resolveTag [strDeeptech, strGeneral] tagDeeptechQuantum =
      some strDeeptech := by decide
  refine ⟨?_, hscen, ?_⟩
  · simp [resolveCategory, hne]
  · rw [hscen]
    simp [resolveCategory, show strGeneral ≠ strDeeptech by decide]

/-! ## Serializer lemmas and claim C4 -/

/-- Every line emitted below one node carries the canonical marker and
indentation of some depth at least 1. -/
theorem renderNode_lines (root : MindmapNode) :
    ∀ n d, 1 ≤ d → ∀ l ∈ renderNode root d n,
      ∃ e, 1 ≤ e ∧ l.marker = markerFor e ∧ l.indent = indentFor e := by
  intro n
  induction n using MindmapNode.strongInduction with
  | _ i t c dep tg s cs sp ih =>
    intro d hd l hl
    simp only [renderNode] at hl
    rcases List.mem_cons.mp hl with rfl | hmem
    · exact ⟨d, hd, rfl, rfl⟩
    · rw [List.mem_flatten] at hmem
      obtain ⟨L, hL, hlL⟩ := hmem
      rw [List.mem_map] at hL
      obtain ⟨x, _, rfl⟩ := hL
      exact ih x.1 x.2 (d + 1) (by omega) l hlL

/-- Every line of a rendered document carries the marker chosen purely
as a function of its own recovered depth. -/
theorem render_marker_of_depth (root : MindmapNode) :
    ∀ l ∈ render root, l.marker = markerFor (lineDepth l) := by
  intro l hl
  unfold render at hl
  rw [List.mem_flatten] at hl
  obtain ⟨L, hL, hlL⟩ := hl
  rw [List.mem_map] at hL
  obtain ⟨x, _, rfl⟩ := hL
  obtain ⟨e, he, hm, hi⟩ := renderNode_lines root x 1 (by omega) l hlL
  rw [lineDepth_eq l e he hm hi, hm]

/-- Claim C4: within one rendered document the outline marker style is a
function of depth only — any two lines at the same depth carry the
identical marker style, regardless of node content or origin. -/
theorem claim4_depth_consistent (root : MindmapNode) (l1 l2 : Line)
    (h1 : l1 ∈ render root) (h2 : l2 ∈ render root)
    (hd : lineDepth l1 = lineDepth l2) :
    l1.marker = l2.marker := by
  rw [render_marker_of_depth root l1 h1, render_marker_of_depth root l2 h2, hd]

/-- Witness for C4: the two depth-1 lines of the two-category tree carry
the same marker. -/
theorem claim4_depth_consistent_witness :
    (⟨Marker.heading, 0, strTech, []⟩ : Line).marker =
      (⟨Marker.heading, 0, strEcon, []⟩ : Line).marker :=
  claim4_depth_consistent twoCatTree _ _
    (by
      have hr : render twoCatTree =
          [⟨Marker.heading, 0, strTech, []⟩, ⟨Marker.heading, 0, strEcon, []⟩] := by
        simp [render, twoCatTree, renderNode, markerFor, indentFor,
          MindmapNode.children]
      rw [hr]
      simp)
    (by
      have hr : render twoCatTree =
          [⟨Marker.heading, 0, strTech, []⟩, ⟨Marker.heading, 0, strEcon, []⟩] := by
        simp [render, twoCatTree, renderNode, markerFor, indentFor,
          MindmapNode.children]
      rw [hr]
      simp)
    (by decide)

/-- Witness for C6 at the concrete conflicting pair General/deeptech. -/
theorem claim6_high_tag_wins_witness :
    resolveCategory .high (some strGeneral) (some strDeeptech) 0 0 =
      some strDeeptech ∧
    resolveTag [strDeeptech, strGeneral] tagDeeptechQuantum = some strDeeptech ∧
    resolveCategory .high (some strGeneral)
      (resolveTag [strDeeptech, strGeneral] tagDeeptechQuantum) 0 0 =
        some strDeeptech :=
  claim6_high_tag_wins strGeneral strDeeptech 0 0 (by decide)

end AIMindmap
